import Mathlib

/-!
# nw-loader: a shallow embedding of the cache loader and its distributed lock

This file embeds the production code of the `nw-loader` repository
(`index.js`, here `src/unnamed/part_000`, and `lock.js`) in Lean 4 and
proves the testable properties stated in its specification.

Modelling conventions:
* JavaScript values that travel through JSON are an inductive `JVal`
  (numbers are modelled as integers; the code under verification never
  performs numeric arithmetic on cached payloads).
* The Redis-compatible key-value store is an association list.  A data
  entry holds the *parse result* of the stored string blob (`none`
  standing for a blob `JSON.parse` would reject) together with its
  remaining TTL in seconds; this mirrors the adapter contract of the
  spec, which says the store moves opaque blobs and the serializer is
  the platform's JSON library.
* Asynchronous code is embedded as a sequential state-passing function:
  one `load` call runs against a fixed environment (store contents, lock
  occupancy, loader outcome, TTL-probe fault), with each `await` point
  an atomic step.  The `race` waiter loop is given the finite list of
  its `get` observations; the caller's promise is a list of settlement
  events so that zero or double settlement is observable.
-/

namespace NwLoader

/-- JSON-representable JavaScript values. -/
inductive JVal where
  | null
  | bool (b : Bool)
  | num (n : Int)
  | str (s : String)
  | arr (elems : List JVal)
  | obj (fields : List (String × JVal))

/-- JavaScript truthiness of a `JVal` (objects and arrays are always truthy). -/
def truthy : JVal → Bool
  | .null => false
  | .bool b => b
  | .num n => !(n = 0)
  | .str s => !(s = "")
  | .arr _ => true
  | .obj _ => true

/-- Truthiness where `none` stands for JS `null`/`undefined`. -/
def truthyOpt : Option JVal → Bool
  | none => false
  | some v => truthy v

/-- JS property read `v.name`: `none` (undefined) unless `v` is an object with the field. -/
def jsField (v : Option JVal) (name : String) : Option JVal :=
  match v with
  | some (.obj fs) => (fs.find? (fun p => p.1 = name)).map (fun p => p.2)
  | _ => none

/-- Escape a string for JSON output (quotes and backslashes). -/
def jsonEscape (s : String) : String :=
  s.foldl (fun acc c =>
    if c = '"' then acc ++ "\\\""
    else if c = '\\' then acc ++ "\\\\"
    else acc.push c) ""

mutual

/-- `JSON.stringify` on `JVal` (integers print as JS integers do). -/
def jsonStringify : JVal → String
  | .null => "null"
  | .bool true => "true"
  | .bool false => "false"
  | .num n => toString n
  | .str s => "\"" ++ jsonEscape s ++ "\""
  | .arr xs => "[" ++ jsonStringifyArr xs ++ "]"
  | .obj fs => "\x7b" ++ jsonStringifyObj fs ++ "\x7d"

/-- Comma-separated rendering of a JSON array body. -/
def jsonStringifyArr : List JVal → String
  | [] => ""
  | [x] => jsonStringify x
  | x :: y :: xs => jsonStringify x ++ "," ++ jsonStringifyArr (y :: xs)

/-- Comma-separated rendering of a JSON object body. -/
def jsonStringifyObj : List (String × JVal) → String
  | [] => ""
  | [(k, v)] => "\"" ++ jsonEscape k ++ "\":" ++ jsonStringify v
  | (k, v) :: f :: fs =>
      "\"" ++ jsonEscape k ++ "\":" ++ jsonStringify v ++ "," ++ jsonStringifyObj (f :: fs)

end

/-- Modelled from the spec: the repository requires `./md5` but `md5.js`
is not among the provided sources.  This stands in for the hex MD5
digest of a string; every claim settled here depends only on `md5`
being a fixed deterministic function from strings to strings. -/
def md5 (s : String) : String := "d-" ++ s

/-- `String(n)` for an integer-valued JS number. -/
def jsNumberToString (n : Int) : String := toString n

/-- The configuration a successfully constructed `NWLoader` carries:
validated `name`, user TTL `T` in seconds, and the data-key namespace. -/
structure Config where
  name : String
  ttl : Nat
  keyPref : String

/-- A generic association-list keyspace (the Redis-compatible store). -/
def KV (β : Type) := List (String × β)

/-- `GET`-style lookup. -/
def KV.get {β : Type} : KV β → String → Option β
  | [], _ => none
  | (k, v) :: rest, key => if k = key then some v else KV.get rest key

/-- `DEL`: remove every binding of a key. -/
def KV.del {β : Type} : KV β → String → KV β
  | [], _ => []
  | (k, v) :: rest, key => if k = key then KV.del rest key else (k, v) :: KV.del rest key

/-- `SET`: bind a key, replacing any previous binding. -/
def KV.set {β : Type} (s : KV β) (key : String) (v : β) : KV β :=
  (key, v) :: KV.del s key

/-- A stored data entry: the parse result of the blob (`none` = blob that
`JSON.parse` rejects) and its remaining TTL in seconds (`none` = no expiry). -/
structure StoredVal where
  blob : Option JVal
  expiry : Option Nat

/-- The data keyspace. -/
def DStore := KV StoredVal

/-- Redis `TTL key`: `-2` when absent, `-1` when no expiry, else seconds left. -/
def DStore.ttlInt (s : DStore) (key : String) : Int :=
  match KV.get s key with
  | none => -2
  | some sv =>
    match sv.expiry with
    | none => -1
    | some t => (t : Int)

/-- Redis `SET key v EX sec`: unconditional write; the reply is `"OK"`. -/
def DStore.setEx (s : DStore) (key : String) (blob : Option JVal) (exSec : Nat) :
    DStore × String :=
  (KV.set s key ⟨blob, some exSec⟩, "OK")

/-- `index.js` key derivation shared by `getKey`/`getBaseKey`: a string or
number key is used verbatim (interpolated as JS does), anything else is
replaced by the MD5 digest of its JSON form. -/
def derivedKeyString : JVal → String
  | .str s => s
  | .num n => jsNumberToString n
  | k => md5 (jsonStringify k)

/-- `NWLoader.prototype.getKey` (`part_000` lines 47-52):
the data key `keyPrefix:name:derivedKey`. -/
def NWLoader.getKey (cfg : Config) (key : JVal) : String :=
  cfg.keyPref ++ ":" ++ cfg.name ++ ":" ++ derivedKeyString key

/-- `NWLoader.prototype.getBaseKey` (`part_000` lines 54-61): a single
string/number argument is the base key; any other argument shape is
hashed to a string. -/
def getBaseKey (args : List JVal) : JVal :=
  let key : JVal :=
    match args with
    | [a] => a
    | _ => .arr args
  match key with
  | .str s => .str s
  | .num n => .num n
  | k => .str (md5 (jsonStringify k))

/-- `NWLoader.prototype.needsRefresh` (`part_000` lines 76-94), with the
`redis.ttl` call's outcome passed in (`Except.error` = the probe threw).
`-2` (absent) refreshes, otherwise refresh exactly when `ttl ≤ options.ttl`
(which also classifies `-1`, no expiry, as stale). -/
def needsRefresh (cfg : Config) (ttlRes : Except Unit Int) : Bool :=
  match ttlRes with
  | .error _ => true
  | .ok t => if t = -2 then true else decide (t ≤ (cfg.ttl : Int))

/-- A JS `Error`-like object as this code observes it: the message, an
optional `code`, and the `nw_loader` marker the race task sets. -/
structure JsErr where
  message : String
  code : Option String
  nw_loader : Bool

/-- JS truthiness of `err.code`. -/
def codeTruthy (e : JsErr) : Bool :=
  match e.code with
  | none => false
  | some c => !(c = "")

/-- The race task's catch block (`part_000` lines 169-176): set the
`nw_loader` marker; rethrow unchanged when `err.code` is truthy; otherwise
re-label the message with the loader name and data key. -/
def annotateTaskErr (cfg : Config) (key : String) (e : JsErr) : JsErr :=
  let e1 : JsErr := ⟨e.message, e.code, true⟩
  if codeTruthy e1 then e1
  else ⟨"NWLoader " ++ cfg.name ++ ":" ++ key ++ " Error: " ++ e1.message, e1.code, true⟩

/-- The background branch of `load`'s outer catch (`part_000` lines 191-196):
prefix the message again and tag the error as a background failure. -/
def bgAnnotate (cfg : Config) (key : String) (e : JsErr) : JsErr :=
  ⟨"NWLoader " ++ cfg.name ++ ":" ++ key ++ " Error: " ++ e.message,
    some ("nwloader-background-error"), e.nw_loader⟩

/-- Cache entry written by `prime` (`part_000` lines 212-215). -/
def encodeEntry (now : Nat) (w : JVal) : JVal :=
  .obj [("createTime", .num (now : Int)), ("value", w)]

/-- `NWLoader.prototype.prime` (`part_000` lines 209-219): serialize
`createTime`/`value`, `SET ... EX 2T`, report whether the reply was `"OK"`. -/
def primeModel (cfg : Config) (s : DStore) (now : Nat) (origKey : JVal) (w : JVal) :
    DStore × Bool :=
  let key := NWLoader.getKey cfg origKey
  let r := DStore.setEx s key (some (encodeEntry now w)) (cfg.ttl * 2)
  (r.1, r.2 = "OK")

/-- The lock keyspace: lock key to held token. -/
def LockStore := KV String

/-- `Lock#releaseScript` (`lock.js` lines 18-24) evaluated atomically:
delete the key and answer `1` exactly when its value equals the token,
otherwise answer `0` and leave the store unchanged. -/
def releaseScriptEval (s : LockStore) (key tok : String) : LockStore × Int :=
  if KV.get s key = some tok then (KV.del s key, 1) else (s, 0)

/-- `Lock.prototype.getKey` (`lock.js` lines 40-45). -/
def NWLock.getKey (keyPref : String) (key : JVal) : String :=
  keyPref ++ ":" ++ derivedKeyString key

/-- The `:race` lock key used by `getRaceLock` (`lock.js` line 74). -/
def raceLockKey (keyPref : String) (key : JVal) : String :=
  NWLock.getKey keyPref key ++ ":race"

/-- `race`'s argument normalization (`lock.js` lines 146-157): the ignore
flag, in whichever position it was passed, defaults to `true` when omitted. -/
def raceIgnore (ignoreArg : Option Bool) : Bool := ignoreArg.getD true

/-- What one `race` call did to its caller's state `σ`:
the state after the call, how many times it ran the task, how many
token-guarded release attempts it made, and its outcome —
`none` when the contended waiter loop never observed the lock absent,
`some (.error e)` when the task raised (rethrown after release), and
`some (.ok (executed, result))` otherwise. -/
structure RaceOut (σ α : Type) where
  state : σ
  taskRuns : Nat
  releases : Nat
  outcome : Option (Except JsErr (Bool × Option α))

/-- `Lock.prototype.race` with `getRaceLock` inlined (`lock.js` lines
71-106 and 144-207), for one call against a fixed environment:
`lockHeld` says whether the initial `SET NX` finds the lock key taken;
`polls` lists, for each iteration of the waiter loop, whether `get`
returned absent.  The task is state-passing over the caller's `σ`. -/
def raceModel {σ α : Type} (lockHeld : Bool) (polls : List Bool) (ignore : Bool)
    (task : σ → σ × Except JsErr α) (s : σ) : RaceOut σ α :=
  if lockHeld then
    if ignore then ⟨s, 0, 0, some (.ok (false, none))⟩
    else if polls.contains true then ⟨s, 0, 0, some (.ok (false, none))⟩
    else ⟨s, 0, 0, none⟩
  else
    let r := task s
    match r.2 with
    | .ok a => ⟨r.1, 1, 1, some (.ok (true, some a))⟩
    | .error e => ⟨r.1, 1, 1, some (.error e)⟩

/-- The fixed environment one `load` call runs against: the store, whether
the race lock key is initially held by someone else, whether the
`redis.ttl` probe throws, what the user loader would produce, and
`Date.now()` at priming time. -/
structure LoadEnv where
  store : DStore
  lockHeld : Bool
  ttlErr : Bool
  loaderResult : Except JsErr JVal
  now : Nat

/-- The caller-visible state the race task closes over in `load`:
the store, the promise's settlement events so far, and the `did` flag. -/
structure LoadSt where
  store : DStore
  settles : List (Except JsErr (Option JVal))
  did : Bool

/-- Everything one `load` call did: settlement events of the returned
promise (in order), the resulting store, how many times the user loader
ran, whether the refresh branch was entered, and the background errors
it logged. -/
structure LoadOut where
  settles : List (Except JsErr (Option JVal))
  store : DStore
  loaderRuns : Nat
  refreshEntered : Bool
  bgErrors : List JsErr

/-- The body of `NWLoader.prototype.load` (`part_000` lines 119-200) with
the recursive re-read abstracted as `inner`.  Mirrors the source: read and
parse the blob; on a truthy entry with truthy `createTime` resolve at once
and set `did`; enter the refresh branch when the parsed value is falsy or
`needsRefresh`; guard the loader with `race` (ignore = `did`), the task
priming the cache and resolving the caller if still unresolved; on
`executed:false` with `did` still false re-read via `inner`; route errors
to `reject` when `did` is false and to a background log otherwise.

The waiter loop is given `[true]` as its observations: the lock key's
`PX` expiry guarantees a poll eventually finds it absent, and the re-read
then runs against a free lock over the unchanged store (the expired
holder primed nothing). -/
def loadStep (cfg : Config) (env : LoadEnv) (args : List JVal)
    (inner : LoadEnv → List JVal → LoadOut) : LoadOut :=
  let origKey := getBaseKey args
  let key := NWLoader.getKey cfg origKey
  let v : Option JVal := (KV.get env.store key).bind StoredVal.blob
  let hit := truthyOpt v && truthyOpt (jsField v ("createTime"))
  let st0 : LoadSt := ⟨env.store, if hit then [.ok (jsField v ("value"))] else [], hit⟩
  let needs := needsRefresh cfg
    (if env.ttlErr then .error () else .ok (DStore.ttlInt env.store key))
  if !truthyOpt v || needs then
    let task : LoadSt → LoadSt × Except JsErr Unit := fun st =>
      match env.loaderResult with
      | .ok newData =>
        let store1 := (primeModel cfg st.store env.now origKey newData).1
        if st.did then (⟨store1, st.settles, st.did⟩, .ok ())
        else (⟨store1, st.settles ++ [.ok (some newData)], true⟩, .ok ())
      | .error e => (st, .error (annotateTaskErr cfg key e))
    let ro := raceModel env.lockHeld [true] st0.did task st0
    match ro.outcome with
    | some (.ok (executed, _)) =>
      if !executed && !ro.state.did then
        let res := inner ⟨ro.state.store, false, env.ttlErr, env.loaderResult, env.now⟩ [origKey]
        ⟨ro.state.settles ++ res.settles, res.store, ro.taskRuns + res.loaderRuns, true,
          res.bgErrors⟩
      else ⟨ro.state.settles, ro.state.store, ro.taskRuns, true, []⟩
    | some (.error e) =>
      if ro.state.did then
        ⟨ro.state.settles, ro.state.store, ro.taskRuns, true, [bgAnnotate cfg key e]⟩
      else ⟨ro.state.settles ++ [.error e], ro.state.store, ro.taskRuns, true, []⟩
    | none => ⟨ro.state.settles, ro.state.store, ro.taskRuns, true, []⟩
  else ⟨st0.settles, st0.store, 0, false, []⟩

/-- `load` with a recursion budget (the re-read after losing the race). -/
def loadAux (cfg : Config) : Nat → LoadEnv → List JVal → LoadOut
  | 0, env, _ => ⟨[], env.store, 0, false, []⟩
  | fuel + 1, env, args => loadStep cfg env args (loadAux cfg fuel)

/-- One `NWLoader.prototype.load` call.  In the modelled environment a
lost race is followed by at most one re-read (the spec's "one refresh
cycle produces at most one re-read"), so budget 2 is never exhausted. -/
def loadModel (cfg : Config) (env : LoadEnv) (args : List JVal) : LoadOut :=
  loadAux cfg 2 env args

/-- The store/probe situation under which `load` hangs: the blob parses to
a truthy value whose `createTime` is falsy while the key does not need a
refresh. -/
def cornerCase (cfg : Config) (env : LoadEnv) (args : List JVal) : Bool :=
  let key := NWLoader.getKey cfg (getBaseKey args)
  let v : Option JVal := (KV.get env.store key).bind StoredVal.blob
  truthyOpt v && !truthyOpt (jsField v ("createTime"))
    && !needsRefresh cfg
        (if env.ttlErr then .error () else .ok (DStore.ttlInt env.store key))

/-- Remaining store TTL at time `t` (seconds) of a data key primed at time
`p` with expiry `2T`, as Redis reports it. -/
def simTtl (ttl : Nat) (p t : Nat) : Int :=
  if t < p + 2 * ttl then (p : Int) + 2 * ttl - t else -2

/-- Whether a `load` at time `t` runs the user loader, given the time of the
last successful prime (`none` = never primed / expired away): a miss always
loads, otherwise the `needsRefresh` decision on the simulated TTL. -/
def shouldRun (cfg : Config) (st : Option Nat) (t : Nat) : Bool :=
  match st with
  | none => true
  | some p => needsRefresh cfg (.ok (simTtl cfg.ttl p t))

/-- Loader-run times of a sequence of non-overlapping `load` calls for one
key: each step is a call time paired with whether its loader invocation
succeeds (a success primes the cache; a failure is never cached, per the
task's catch block). -/
def runTimes (cfg : Config) : List (Nat × Bool) → Option Nat → List Nat
  | [], _ => []
  | (t, ok) :: rest, st =>
    if shouldRun cfg st t then
      t :: runTimes cfg rest (if ok then some t else st)
    else runTimes cfg rest st

/-- Membership of `t` in the closed window `[a, a + w]`. -/
def inWindow (a w t : Nat) : Bool := decide (a ≤ t) && decide (t ≤ a + w)

/-- How many of the listed times fall in the window `[a, a + w]`. -/
def countWindow (l : List Nat) (a w : Nat) : Nat :=
  (l.filter (inWindow a w)).length

/-- One caller's position in the `load(k)` control flow (`part_000` lines
119-200 together with `lock.js` lines 71-106): about to read the cache
and run the freshness gate; past the gate and about to attempt `SET NX`
(carrying its `did` flag); holding the race lock with the loader
invocation in flight; polling the held lock (contended with
`did = false`); or finished. -/
inductive Phase where
  | start
  | raceBegin (did : Bool)
  | running (did : Bool)
  | waiting
  | done

/-- Whether a caller currently holds the lock with a loader invocation in flight. -/
def Phase.isRunning : Phase → Bool
  | .running _ => true
  | _ => false

/-- The shared state of `N` concurrent `load(k)` callers across processes:
the data entry for `k` (time of the last successful prime; expiry `2T`
implied), the race-lock key's occupancy, each caller's phase, and the
start times of all loader invocations in aggregate.  The lock is held
from a successful `SET NX` until its holder's release — the executions
modelled are those where a task finishes within the lock's `PX` timeout.
Entries are produced by `prime`, hence well-formed (truthy `createTime`). -/
structure RaceSt where
  entry : Option Nat
  lock : Bool
  procs : List Phase
  runs : List Nat

/-- Whether `GET` still returns the entry at time `t` (store expiry `2T`). -/
def hitAt (ttl : Nat) (entry : Option Nat) (t : Nat) : Bool :=
  match entry with
  | none => false
  | some p => decide (t < p + 2 * ttl)

/-- The refresh gate `!v || needsRefresh(key)` evaluated at time `t`. -/
def gateAt (cfg : Config) (entry : Option Nat) (t : Nat) : Bool :=
  match entry with
  | none => true
  | some p => !decide (t < p + 2 * cfg.ttl) || needsRefresh cfg (.ok (simTtl cfg.ttl p t))

/-- One atomic step of caller `i` at time `t`: read-and-gate
(`part_000` lines 129-152); single `SET NX` attempt with the
contended outcomes — skip when `did` (ignore), poll otherwise
(`lock.js` lines 78-100, `part_000` line 157); loader completion with
`prime` on success, then release (`part_000` lines 161-163, `lock.js`
lines 185-191 — on failure nothing is primed, the lock is still
released); a polling waiter re-reads once the lock clears (`part_000`
lines 183-185, the recursive `load`).  `ok` is the loader outcome,
consumed only at completion. -/
def raceStep (cfg : Config) (g : RaceSt) (i t : Nat) (ok : Bool) : RaceSt :=
  match g.procs[i]? with
  | none => g
  | some .start =>
    if gateAt cfg g.entry t then
      ⟨g.entry, g.lock, g.procs.set i (.raceBegin (hitAt cfg.ttl g.entry t)), g.runs⟩
    else ⟨g.entry, g.lock, g.procs.set i .done, g.runs⟩
  | some (.raceBegin did) =>
    if g.lock then
      if did then ⟨g.entry, g.lock, g.procs.set i .done, g.runs⟩
      else ⟨g.entry, g.lock, g.procs.set i .waiting, g.runs⟩
    else ⟨g.entry, true, g.procs.set i (.running did), g.runs ++ [t]⟩
  | some (.running _) =>
    if ok then ⟨some t, false, g.procs.set i .done, g.runs⟩
    else ⟨g.entry, false, g.procs.set i .done, g.runs⟩
  | some .waiting =>
    if g.lock then g else ⟨g.entry, g.lock, g.procs.set i .start, g.runs⟩
  | some .done => g

/-- Run a schedule: an arbitrary interleaving of caller steps, each
entry naming the caller, the time of its step, and the loader outcome
used if that step is a completion. -/
def raceRun (cfg : Config) : RaceSt → List (Nat × Nat × Bool) → RaceSt
  | g, [] => g
  | g, (i, t, ok) :: rest => raceRun cfg (raceStep cfg g i t ok) rest

/-- How many callers currently have a loader invocation in flight. -/
def runningCount (g : RaceSt) : Nat := (g.procs.filter Phase.isRunning).length

/-- The number of loader invocations the race lock admits in flight:
one while the lock key is held, none while it is free. -/
def lockCap (g : RaceSt) : Nat := if g.lock then 1 else 0

/-- A character the `NWLoader` name regex `[a-z0-9:_\-.\[\]]` (with `i`) accepts. -/
def validNameChar (c : Char) : Bool :=
  c.isAlpha || c.isDigit || c = ':' || c = '_' || c = '-' || c = '.' || c = '[' || c = ']'

/-- The constructor's name validation (`part_000` line 9): non-empty and
every character in the permitted class (stated over the string's
character list). -/
def validName (name : String) : Bool :=
  !(name.data = []) && name.data.all validNameChar

/-- The option bag passed to the `NWLoader` constructor: whether a
Redis-like instance is present, and the `ttl`/`keyPrefix` entries when
provided (absent entries take the `Object.assign` defaults). -/
structure NWOptions where
  redis : Bool
  ttl : Option Int
  keyPref : Option String

/-- The `NWLoader` constructor (`part_000` lines 7-41): validate the name,
apply defaults `ttl := 30` and `keyPrefix := "nwloader"`, reject
`ttl < 2`, require the Redis instance. -/
def mkNWLoader (name : String) (opts : NWOptions) : Except String Config :=
  if !validName name then
    .error ("NWLoader need first argument to be a valid string")
  else
    let ttl : Int := opts.ttl.getD 30
    let kp : String := opts.keyPref.getD ("nwloader")
    if ttl < 2 then .error ("NWLoader need ttl greater than 2 seconds")
    else if !opts.redis then .error ("NWLoader now requires a Redis-like instance")
    else .ok ⟨name, ttl.toNat, kp⟩

/-! ## Store lemmas -/

theorem KV.get_del {β : Type} (s : KV β) (k k2 : String) :
    KV.get (KV.del s k) k2 = if k2 = k then none else KV.get s k2 := by
  induction s with
  | nil => simp [KV.del, KV.get]
  | cons hd tl ih =>
    obtain ⟨hk, hv⟩ := hd
    simp only [KV.del, KV.get]
    by_cases h1 : hk = k
    · simp only [if_pos h1, ih]
      by_cases h2 : k2 = k
      · simp [h2]
      · have h3 : ¬ hk = k2 := fun h => h2 (h1 ▸ h.symm)
        simp [KV.get, h2, h3]
    · simp only [if_neg h1, KV.get]
      by_cases h2 : hk = k2
      · have hne : ¬ k2 = k := fun h => h1 (h2.symm ▸ h)
        simp [h2, hne]
      · simp [h2, ih]

theorem KV.get_set {β : Type} (s : KV β) (k k2 : String) (v : β) :
    KV.get (KV.set s k v) k2 = if k2 = k then some v else KV.get s k2 := by
  by_cases h : k2 = k
  · subst h; simp [KV.set, KV.get]
  · have h2 : ¬ k = k2 := fun hh => h hh.symm
    simp [KV.set, KV.get, h2, KV.get_del, h]

/-! ## Claim theorems -/

/-- Claim C4: the token-guarded release (the Lua script of `lock.js`)
deletes the lock key and returns 1 exactly when the stored value equals
the caller's token; otherwise it returns 0 and leaves the store unchanged
(in particular a holder whose lock expired cannot delete a successor's
differently-tokened lock), and releasing again right after always returns
0, so each acquisition is matched by at most one release that returns 1. -/
theorem release_token_guard (s : LockStore) (key tok k2 : String) :
    ((releaseScriptEval s key tok).2 = if KV.get s key = some tok then 1 else 0) ∧
    (KV.get (releaseScriptEval s key tok).1 k2
        = if k2 = key ∧ KV.get s key = some tok then none else KV.get s k2) ∧
    (releaseScriptEval (releaseScriptEval s key tok).1 key tok).2 = 0 := by
  by_cases h : KV.get s key = some tok
  · refine ⟨by simp [releaseScriptEval, h], ?_, ?_⟩
    · simp [releaseScriptEval, h, KV.get_del]
    · simp [releaseScriptEval, h, KV.get_del]
  · refine ⟨by simp [releaseScriptEval, h], ?_, ?_⟩
    · simp [releaseScriptEval, h]
    · simp [releaseScriptEval, h]

/-- Claim C8: `prime(k, v)` stores under the data key the single blob
`{createTime: now, value: v}` with store expiry `2T` seconds, overwriting
whatever entry was there (the write is unconditional, for every prior
store), and returns `true`, which is exactly the comparison of the
store's reply with `"OK"`. -/
theorem prime_writes_double_ttl (cfg : Config) (s : DStore) (now : Nat) (k w : JVal) :
    KV.get (primeModel cfg s now k w).1 (NWLoader.getKey cfg k)
        = some ⟨some (encodeEntry now w), some (cfg.ttl * 2)⟩ ∧
    (primeModel cfg s now k w).2 = true ∧
    (DStore.setEx s (NWLoader.getKey cfg k) (some (encodeEntry now w)) (cfg.ttl * 2)).2
        = "OK" ∧
    (primeModel cfg s now k w).2
        = ((DStore.setEx s (NWLoader.getKey cfg k) (some (encodeEntry now w))
            (cfg.ttl * 2)).2 = "OK" : Bool) := by
  refine ⟨?_, ?_, rfl, rfl⟩
  · simp [primeModel, DStore.setEx, KV.get_set]
  · simp [primeModel, DStore.setEx]

/-- Claim C9: construction fails exactly when the name is empty or has a
character outside `[A-Za-z0-9:_\-.\[\]]`, or the (defaulted) ttl is below
2, or no Redis instance is supplied; with a valid name and default
options it succeeds with `ttl = 30` and `keyPrefix = "nwloader"`; ttl 1
is rejected, ttl 2 accepted, and a name containing `/` is rejected. -/
theorem construct_validation (name : String) (opts : NWOptions) :
    ((mkNWLoader name opts).isOk
        = (validName name && decide (2 ≤ opts.ttl.getD 30) && opts.redis)) ∧
    (validName name = true →
        mkNWLoader name ⟨true, none, none⟩ = .ok ⟨name, 30, "nwloader"⟩) ∧
    (mkNWLoader ("user") ⟨true, some 1, none⟩).isOk = false ∧
    (mkNWLoader ("user") ⟨true, some 2, none⟩).isOk = true ∧
    (mkNWLoader ("a/b") ⟨true, none, none⟩).isOk = false := by
  refine ⟨?_, ?_, by decide, by decide, by decide⟩
  · by_cases h1 : validName name
    · by_cases h2 : (2 : Int) ≤ opts.ttl.getD 30
      · have h2' : ¬ opts.ttl.getD 30 < 2 := by omega
        by_cases h3 : opts.redis <;>
          simp [mkNWLoader, h1, h2, h2', h3, Except.isOk, Except.toBool]
      · have h2' : opts.ttl.getD 30 < 2 := by omega
        simp [mkNWLoader, h1, h2, h2', Except.isOk, Except.toBool]
    · simp [mkNWLoader, h1, Except.isOk, Except.toBool]
  · intro h
    simp [mkNWLoader, h]

/-- Witness for C9 at a concrete valid name and default options. -/
theorem construct_validation_witness :
    validName ("user") = true ∧
    mkNWLoader ("user") ⟨true, none, none⟩ = .ok ⟨"user", 30, "nwloader"⟩ :=
  ⟨by decide, (construct_validation ("user") ⟨true, none, none⟩).2.1 (by decide)⟩

/-- Claim C10: a numeric argument `n` and the string argument `String(n)`
derive the identical data key and the identical race-lock key, so
`load(n)` and `load(String(n))` address the same cache entry. -/
theorem numeric_string_key_equiv (cfg : Config) (lockPref : String) (n : Int) :
    NWLoader.getKey cfg (getBaseKey [.num n])
        = NWLoader.getKey cfg (getBaseKey [.str (jsNumberToString n)]) ∧
    NWLoader.getKey cfg (.num n) = NWLoader.getKey cfg (.str (jsNumberToString n)) ∧
    raceLockKey lockPref (getBaseKey [.num n])
        = raceLockKey lockPref (getBaseKey [.str (jsNumberToString n)]) :=
  ⟨rfl, rfl, rfl⟩

/-- Claim C3: a contended `race` call (the `SET NX` finds the lock key
held) never runs the task, never attempts a release, and leaves the
caller's state untouched; with `ignore` omitted (defaulting to true) or
passed as true it returns `{executed: false, result: null}` immediately,
whatever the waiter loop would have observed; with `ignore = false` it
returns the same value exactly after a poll observes the lock key absent. -/
theorem race_contended_no_exec {σ α : Type} (polls : List Bool)
    (task : σ → σ × Except JsErr α) (s : σ) :
    raceModel true polls (raceIgnore none) task s = ⟨s, 0, 0, some (.ok (false, none))⟩ ∧
    raceModel true polls true task s = ⟨s, 0, 0, some (.ok (false, none))⟩ ∧
    ((raceModel true polls false task s).outcome = some (.ok (false, none))
        ↔ polls.contains true = true) ∧
    (raceModel true polls false task s).state = s ∧
    (raceModel true polls false task s).taskRuns = 0 ∧
    (raceModel true polls false task s).releases = 0 := by
  by_cases h : true ∈ polls <;>
    simp [raceModel, raceIgnore, h]

/-! ## Load-model helper lemmas -/

theorem loadAux_one (cfg : Config) (env : LoadEnv) (args : List JVal) :
    loadAux cfg 1 env args = loadStep cfg env args (loadAux cfg 0) := rfl

theorem load_unfold (cfg : Config) (env : LoadEnv) (args : List JVal) :
    loadModel cfg env args = loadStep cfg env args (loadAux cfg 1) := rfl

theorem getBaseKey_scalar (args : List JVal) :
    getBaseKey [getBaseKey args] = getBaseKey args := by
  rcases args with _ | ⟨a, rest⟩
  · simp [getBaseKey]
  · rcases rest with _ | ⟨b, t⟩
    · cases a <;> simp [getBaseKey]
    · simp [getBaseKey]

theorem getKey_getBaseKey_single (cfg : Config) (k : JVal) :
    NWLoader.getKey cfg (getBaseKey [k]) = NWLoader.getKey cfg k := by
  cases k <;> simp [getBaseKey, NWLoader.getKey, derivedKeyString]

theorem cornerCase_rebase (cfg : Config) (store : DStore) (lh lh2 ttlErr : Bool)
    (lres lres2 : Except JsErr JVal) (now now2 : Nat) (args : List JVal) :
    cornerCase cfg ⟨store, lh2, ttlErr, lres2, now2⟩ [getBaseKey args]
      = cornerCase cfg ⟨store, lh, ttlErr, lres, now⟩ args := by
  simp [cornerCase, getBaseKey_scalar]

/-- When the race lock is free, one `loadStep` settles exactly once unless
the corner store state is observed (then zero settles), no matter what the
re-read continuation would do. -/
theorem loadStep_settles_free (cfg : Config) (store : DStore) (ttlErr : Bool)
    (lres : Except JsErr JVal) (now : Nat) (args : List JVal)
    (inner : LoadEnv → List JVal → LoadOut) :
    (loadStep cfg ⟨store, false, ttlErr, lres, now⟩ args inner).settles.length
      = if cornerCase cfg ⟨store, false, ttlErr, lres, now⟩ args then 0 else 1 := by
  by_cases b1 : truthyOpt ((KV.get store (NWLoader.getKey cfg (getBaseKey args))).bind
      StoredVal.blob) = true <;>
  by_cases b2 : truthyOpt (jsField ((KV.get store (NWLoader.getKey cfg
      (getBaseKey args))).bind StoredVal.blob) "createTime") = true <;>
  by_cases b3 : needsRefresh cfg (if ttlErr then .error () else
      .ok (DStore.ttlInt store (NWLoader.getKey cfg (getBaseKey args)))) = true <;>
  cases lres <;>
  simp [loadStep, cornerCase, raceModel, b1, b2, b3]

theorem needsRefresh_eq (cfg : Config) (ttlErr : Bool) (r : Int) :
    needsRefresh cfg (if ttlErr then .error () else .ok r)
      = (ttlErr || decide (r = -2) || decide (r ≤ (cfg.ttl : Int))) := by
  cases ttlErr
  · by_cases h : r = -2 <;> simp [needsRefresh, h]
  · simp [needsRefresh]

/-- The `refreshEntered` flag of a `load` call equals the source's branch
condition `!v || needsRefresh(key)`. -/
theorem load_refresh_flag (cfg : Config) (env : LoadEnv) (args : List JVal) :
    (loadModel cfg env args).refreshEntered
      = (!truthyOpt ((KV.get env.store (NWLoader.getKey cfg (getBaseKey args))).bind
            StoredVal.blob)
         || needsRefresh cfg (if env.ttlErr then .error () else
              .ok (DStore.ttlInt env.store (NWLoader.getKey cfg (getBaseKey args))))) := by
  obtain ⟨store, lockHeld, ttlErr, lres, now⟩ := env
  by_cases hr : (!truthyOpt ((KV.get store (NWLoader.getKey cfg (getBaseKey args))).bind
      StoredVal.blob)
      || needsRefresh cfg (if ttlErr then .error () else
          .ok (DStore.ttlInt store (NWLoader.getKey cfg (getBaseKey args))))) = true
  · cases lockHeld <;> cases lres <;>
      by_cases bh : (truthyOpt ((KV.get store (NWLoader.getKey cfg (getBaseKey args))).bind
          StoredVal.blob)
        && truthyOpt (jsField ((KV.get store (NWLoader.getKey cfg (getBaseKey args))).bind
          StoredVal.blob) "createTime")) = true <;>
      simp [load_unfold, loadStep, raceModel, hr, bh]
  · simp only [Bool.not_eq_true] at hr
    simp [load_unfold, loadStep, hr]

/-- Claim C5 (amended): every `load` call settles its promise at most
once, and exactly once in every environment except the corner store state
(a blob parsing to a truthy value with falsy `createTime`, while the key
does not need a refresh), in which it never settles. -/
theorem load_settles_once (cfg : Config) (env : LoadEnv) (args : List JVal) :
    (loadModel cfg env args).settles.length
      = if cornerCase cfg env args then 0 else 1 := by
  obtain ⟨store, lockHeld, ttlErr, lres, now⟩ := env
  cases lockHeld
  · exact loadStep_settles_free cfg store ttlErr lres now args (loadAux cfg 1)
  · by_cases b1 : truthyOpt ((KV.get store (NWLoader.getKey cfg (getBaseKey args))).bind
        StoredVal.blob) = true <;>
    by_cases b2 : truthyOpt (jsField ((KV.get store (NWLoader.getKey cfg
        (getBaseKey args))).bind StoredVal.blob) "createTime") = true <;>
    by_cases b3 : needsRefresh cfg (if ttlErr then .error () else
        .ok (DStore.ttlInt store (NWLoader.getKey cfg (getBaseKey args)))) = true <;>
    cases lres <;>
    simp [load_unfold, loadStep, cornerCase, raceModel, b1, b2, b3, loadAux_one,
      loadStep_settles_free, cornerCase_rebase, getBaseKey_scalar]

/-- Claim C5 counterexample: a well-typed store state on which `load`
never settles.  The cached blob parses to `{"out": 1}` — truthy but with
no `createTime` — and the key still has 60 s of store TTL against a user
TTL of 30 s, so the read path does not resolve, the refresh branch is not
entered, and the promise hangs: zero settlement events, not one. -/
theorem load_can_hang :
    (loadModel ⟨"users", 30, "nwloader"⟩
        ⟨[("nwloader:users:u", ⟨some (.obj [("out", .num 1)]), some 60⟩)],
          false, false, .ok (.str ("fresh")), 1000⟩
        [.str ("u")]).settles = [] := by
  rfl

/-- Claim C2: the refresh phase of a `load` call is entered exactly when
no truthy decoded entry was observed or the TTL probe threw or reported
`-2` (absent) or a value `≤ T` (which includes `-1`, no expiry); and any
call observing a well-formed entry (truthy decoded blob with truthy
`createTime`) whose remaining store TTL `r` satisfies `r > T` (probe
healthy) does not invoke the loader, does not enter the refresh phase,
leaves the store unchanged, and resolves once to the cached value. -/
theorem load_fresh_hit (cfg : Config) (env : LoadEnv) (args : List JVal) :
    ((loadModel cfg env args).refreshEntered
        = (!truthyOpt ((KV.get env.store (NWLoader.getKey cfg (getBaseKey args))).bind
              StoredVal.blob)
           || (env.ttlErr
           || decide (DStore.ttlInt env.store (NWLoader.getKey cfg (getBaseKey args)) = -2)
           || decide (DStore.ttlInt env.store (NWLoader.getKey cfg (getBaseKey args))
                ≤ (cfg.ttl : Int))))) ∧
    (truthyOpt ((KV.get env.store (NWLoader.getKey cfg (getBaseKey args))).bind
        StoredVal.blob) = true →
     truthyOpt (jsField ((KV.get env.store (NWLoader.getKey cfg (getBaseKey args))).bind
        StoredVal.blob) "createTime") = true →
     env.ttlErr = false →
     (cfg.ttl : Int) < DStore.ttlInt env.store (NWLoader.getKey cfg (getBaseKey args)) →
       (loadModel cfg env args).settles
           = [.ok (jsField ((KV.get env.store (NWLoader.getKey cfg
               (getBaseKey args))).bind StoredVal.blob) "value")] ∧
       (loadModel cfg env args).loaderRuns = 0 ∧
       (loadModel cfg env args).refreshEntered = false ∧
       (loadModel cfg env args).store = env.store) := by
  constructor
  · rw [load_refresh_flag, needsRefresh_eq]
  · intro h1 h2 h3 h4
    obtain ⟨store, lockHeld, ttlErr, lres, now⟩ := env
    simp only at h1 h2 h3 h4
    subst h3
    have hne : ¬ DStore.ttlInt store (NWLoader.getKey cfg (getBaseKey args)) = -2 := by
      have := Int.natCast_nonneg cfg.ttl
      omega
    have hnle : ¬ DStore.ttlInt store (NWLoader.getKey cfg (getBaseKey args))
        ≤ (cfg.ttl : Int) := by omega
    have b3 : needsRefresh cfg
        (.ok (DStore.ttlInt store (NWLoader.getKey cfg (getBaseKey args)))) = false := by
      simp [needsRefresh, hne, hnle]
    simp [load_unfold, loadStep, h1, h2, b3]

/-- Witness for C2: a fresh well-formed entry (60 s left, T = 30) is
served from cache with no loader run and no refresh. -/
theorem load_fresh_hit_witness :
    (loadModel ⟨"users", 30, "nwloader"⟩
        ⟨[("nwloader:users:u",
            ⟨some (.obj [("createTime", .num 1000), ("value", .str ("v1"))]), some 60⟩)],
          false, false, .ok (.str ("fresh")), 2000⟩
        [.str ("u")]).settles = [.ok (some (.str ("v1")))] ∧
    (loadModel ⟨"users", 30, "nwloader"⟩
        ⟨[("nwloader:users:u",
            ⟨some (.obj [("createTime", .num 1000), ("value", .str ("v1"))]), some 60⟩)],
          false, false, .ok (.str ("fresh")), 2000⟩
        [.str ("u")]).loaderRuns = 0 := by
  have h := (load_fresh_hit ⟨"users", 30, "nwloader"⟩
      ⟨[("nwloader:users:u",
          ⟨some (.obj [("createTime", .num 1000), ("value", .str ("v1"))]), some 60⟩)],
        false, false, .ok (.str ("fresh")), 2000⟩
      [.str ("u")]).2 (by rfl) (by rfl) rfl (by decide)
  exact ⟨h.1, h.2.1⟩

/-- Claim C6: with the lock free and the loader failing, a `load` that
observed no well-formed entry (`did` still false when the error arrives)
rejects once with the annotated loader error, logs nothing in the
background, and leaves the store unchanged — so re-running `load` on the
resulting store behaves identically, invoking the loader again (errors
are never cached); while a `load` that already resolved from a stale hit
(`did` true) resolves only to the cached value and the loader error is
swallowed into the background log, tagged `nwloader-background-error`. -/
theorem load_error_paths (cfg : Config) (env : LoadEnv) (args : List JVal) (e : JsErr)
    (hfree : env.lockHeld = false) (herr : env.loaderResult = .error e) :
    ((truthyOpt ((KV.get env.store (NWLoader.getKey cfg (getBaseKey args))).bind StoredVal.blob) && truthyOpt (jsField ((KV.get env.store (NWLoader.getKey cfg (getBaseKey args))).bind StoredVal.blob) "createTime")) = false →
      (!truthyOpt ((KV.get env.store (NWLoader.getKey cfg (getBaseKey args))).bind StoredVal.blob) || needsRefresh cfg (if env.ttlErr then .error () else .ok (DStore.ttlInt env.store (NWLoader.getKey cfg (getBaseKey args))))) = true →
      (loadModel cfg env args).settles = [.error (annotateTaskErr cfg (NWLoader.getKey cfg (getBaseKey args)) e)] ∧
      (loadModel cfg env args).bgErrors = [] ∧
      (loadModel cfg env args).loaderRuns = 1 ∧
      (loadModel cfg env args).store = env.store ∧
      loadModel cfg ⟨(loadModel cfg env args).store, env.lockHeld, env.ttlErr, env.loaderResult, env.now⟩ args = loadModel cfg env args) ∧
    ((truthyOpt ((KV.get env.store (NWLoader.getKey cfg (getBaseKey args))).bind StoredVal.blob) && truthyOpt (jsField ((KV.get env.store (NWLoader.getKey cfg (getBaseKey args))).bind StoredVal.blob) "createTime")) = true →
      needsRefresh cfg (if env.ttlErr then .error () else .ok (DStore.ttlInt env.store (NWLoader.getKey cfg (getBaseKey args)))) = true →
      (loadModel cfg env args).settles = [.ok (jsField ((KV.get env.store (NWLoader.getKey cfg (getBaseKey args))).bind StoredVal.blob) "value")] ∧
      (loadModel cfg env args).bgErrors = [bgAnnotate cfg (NWLoader.getKey cfg (getBaseKey args)) (annotateTaskErr cfg (NWLoader.getKey cfg (getBaseKey args)) e)] ∧
      (loadModel cfg env args).loaderRuns = 1 ∧
      (loadModel cfg env args).store = env.store) := by
  obtain ⟨store, lockHeld, ttlErr, lres, now⟩ := env
  simp only at hfree herr
  subst hfree
  subst herr
  constructor
  · intro hb hr
    simp only at hb hr ⊢
    have hst : (loadModel cfg ⟨store, false, ttlErr, .error e, now⟩ args).store
        = store := by
      simp [load_unfold, loadStep, raceModel, hb, hr]
    refine ⟨?_, ?_, ?_, hst, ?_⟩
    · simp [load_unfold, loadStep, raceModel, hb, hr]
    · simp [load_unfold, loadStep, raceModel, hb, hr]
    · simp [load_unfold, loadStep, raceModel, hb, hr]
    · rw [hst]
  · intro hb hr
    simp only at hb hr ⊢
    rw [Bool.and_eq_true] at hb
    obtain ⟨ha, hb2⟩ := hb
    refine ⟨?_, ?_, ?_, ?_⟩ <;>
      simp [load_unfold, loadStep, raceModel, ha, hb2, hr]

/-- Witness for C6, rejection path: empty store, failing loader — the
call rejects with the annotated error, the store stays empty, and a
re-run behaves identically. -/
theorem load_error_paths_witness :
    (loadModel ⟨"users", 30, "nwloader"⟩
        ⟨[], false, false, .error ⟨"boom", none, false⟩, 1000⟩ [.str ("u")]).settles
      = [.error ⟨"NWLoader users:nwloader:users:u Error: boom", none, true⟩] ∧
    (loadModel ⟨"users", 30, "nwloader"⟩
        ⟨[], false, false, .error ⟨"boom", none, false⟩, 1000⟩ [.str ("u")]).loaderRuns
      = 1 := by
  have h := (load_error_paths ⟨"users", 30, "nwloader"⟩
      ⟨[], false, false, .error ⟨"boom", none, false⟩, 1000⟩ [.str ("u")]
      ⟨"boom", none, false⟩ rfl rfl).1 (by rfl) (by rfl)
  exact ⟨h.1, h.2.2.1⟩

/-- Claim C7: `prime(k, v)` followed immediately by `load(k)` (same
store, any lock/probe/loader environment, `Date.now()` nonzero) resolves
to `v`, for every key `k` — scalar or hashed — and every JSON value. -/
theorem prime_then_load (cfg : Config) (s : DStore) (k w : JVal) (now now2 : Nat)
    (lockHeld ttlErr : Bool) (lres : Except JsErr JVal) (hnow : 0 < now) :
    (loadModel cfg ⟨(primeModel cfg s now k w).1, lockHeld, ttlErr, lres, now2⟩
        [k]).settles = [.ok (some w)] := by
  have hget : KV.get (primeModel cfg s now k w).1 (NWLoader.getKey cfg (getBaseKey [k]))
      = some ⟨some (encodeEntry now w), some (cfg.ttl * 2)⟩ := by
    rw [getKey_getBaseKey_single]
    simp [primeModel, DStore.setEx, KV.get_set]
  have hv : (KV.get (primeModel cfg s now k w).1
        (NWLoader.getKey cfg (getBaseKey [k]))).bind StoredVal.blob
      = some (encodeEntry now w) := by
    rw [hget]
    rfl
  have h1 : truthyOpt (some (encodeEntry now w)) = true := by
    simp [truthyOpt, truthy, encodeEntry]
  have h2 : truthyOpt (jsField (some (encodeEntry now w)) "createTime") = true := by
    simp [jsField, encodeEntry, truthyOpt, truthy]
    omega
  have h3 : jsField (some (encodeEntry now w)) "value" = some w := by
    simp [jsField, encodeEntry]
  by_cases b3 : needsRefresh cfg (if ttlErr then .error () else
      .ok (DStore.ttlInt (primeModel cfg s now k w).1
        (NWLoader.getKey cfg (getBaseKey [k])))) = true <;>
    cases lockHeld <;> cases lres <;>
    simp [load_unfold, loadStep, raceModel, hv, h1, h2, h3, b3]

/-- Witness for C7 at a concrete key, value and prime time. -/
theorem prime_then_load_witness :
    (loadModel ⟨"users", 30, "nwloader"⟩
        ⟨(primeModel ⟨"users", 30, "nwloader"⟩ [] 1000 (.str ("u")) (.str ("v1"))).1,
          false, false, .ok (.str ("other")), 2000⟩
        [.str ("u")]).settles = [.ok (some (.str ("v1")))] :=
  prime_then_load ⟨"users", 30, "nwloader"⟩ [] (.str ("u")) (.str ("v1")) 1000 2000
    false false (.ok (.str ("other"))) (by decide)

/-! ## Loader-rate lemmas (claim C1) -/

theorem shouldRun_some (cfg : Config) (p t : Nat) :
    shouldRun cfg (some p) t = decide (p + cfg.ttl ≤ t) := by
  simp only [shouldRun, needsRefresh, simTtl]
  by_cases h : t < p + 2 * cfg.ttl
  · have hiv : (if t < p + 2 * cfg.ttl then (p : Int) + 2 * cfg.ttl - t else -2)
        = (p : Int) + 2 * cfg.ttl - t := if_pos h
    simp only [hiv]
    have hne : ¬((p : Int) + 2 * (cfg.ttl : Int) - (t : Int) = -2) := by omega
    rw [if_neg hne, decide_eq_decide]
    constructor <;> intro <;> omega
  · have hiv : (if t < p + 2 * cfg.ttl then (p : Int) + 2 * cfg.ttl - t else -2)
        = -2 := if_neg h
    simp only [hiv]
    have hle : p + cfg.ttl ≤ t := by omega
    simp [hle]

/-- When every loader invocation succeeds, the recorded run times are
separated by at least `T`, and all of them lie at least `T` past the last
prime time the trace started from. -/
theorem runTimes_sep (cfg : Config) :
    ∀ (steps : List (Nat × Bool)), (∀ s ∈ steps, s.2 = true) → ∀ st : Option Nat,
      List.Chain' (fun x y => x + cfg.ttl ≤ y) (runTimes cfg steps st) ∧
      ∀ p, st = some p → ∀ t ∈ runTimes cfg steps st, p + cfg.ttl ≤ t := by
  intro steps
  induction steps with
  | nil =>
    intro _ st
    simp [runTimes]
  | cons s rest ih =>
    intro hok st
    obtain ⟨t, okb⟩ := s
    have hokb : okb = true := hok (t, okb) (List.mem_cons_self _ _)
    subst hokb
    have hok2 : ∀ x ∈ rest, x.2 = true := fun x hx => hok x (List.mem_cons_of_mem _ hx)
    by_cases hrun : shouldRun cfg st t = true
    · have hrt : runTimes cfg ((t, true) :: rest) st = t :: runTimes cfg rest (some t) := by
        simp [runTimes, hrun]
      rw [hrt]
      obtain ⟨ihc, ihb⟩ := ih hok2 (some t)
      constructor
      · refine List.chain'_cons'.mpr ⟨?_, ihc⟩
        intro b hb
        exact ihb t rfl b (List.mem_of_mem_head? hb)
      · intro p hp x hx
        subst hp
        rw [shouldRun_some] at hrun
        have h2 : p + cfg.ttl ≤ t := of_decide_eq_true hrun
        rcases List.mem_cons.mp hx with h | h
        · omega
        · have h1 : t + cfg.ttl ≤ x := ihb t rfl x h
          omega
    · have hrt : runTimes cfg ((t, true) :: rest) st = runTimes cfg rest st := by
        simp [runTimes, hrun]
      rw [hrt]
      exact ih hok2 st

/-- Times pairwise separated by at least `T` admit at most `⌊w / T⌋ + 1`
members in any closed window of width `w`. -/
theorem pairwise_window_count (T : Nat) (hT : 0 < T) :
    ∀ (l : List Nat), List.Pairwise (fun x y => x + T ≤ y) l →
      ∀ a w, (l.filter (inWindow a w)).length ≤ w / T + 1 := by
  intro l
  induction l with
  | nil =>
    intro _ a w
    simp
  | cons t rest ih =>
    intro hp a w
    rw [List.pairwise_cons] at hp
    obtain ⟨hall, hrest⟩ := hp
    by_cases hin : inWindow a w t = true
    · rw [List.filter_cons_of_pos hin]
      simp only [List.length_cons]
      have hat : a ≤ t ∧ t ≤ a + w := by simpa [inWindow] using hin
      by_cases hw : w < T
      · have hempty : rest.filter (inWindow a w) = [] := by
          rw [List.filter_eq_nil_iff]
          intro x hx
          have hxt := hall x hx
          simp [inWindow]
          intro hax
          omega
        rw [hempty]
        simp
      · push_neg at hw
        have hcong : rest.filter (inWindow a w) = rest.filter (inWindow (a + T) (w - T)) := by
          apply List.filter_congr
          intro x hx
          have hxt := hall x hx
          have h1 : a + T + (w - T) = a + w := by omega
          have hax : a ≤ x := by omega
          have haTx : a + T ≤ x := by omega
          simp [inWindow, h1, hax, haTx]
        rw [hcong]
        have hrec := ih hrest (a + T) (w - T)
        have hdiv : (w - T) / T + 1 = w / T := by
          have h2 : w - T + T = w := Nat.sub_add_cancel hw
          have h3 := Nat.add_div_right (w - T) hT
          rw [h2] at h3
          omega
        omega
    · rw [List.filter_cons_of_neg hin]
      exact ih hrest a w

theorem filter_length_set (ps : List Phase) (i : Nat) (newph oldph : Phase)
    (h : ps[i]? = some oldph) :
    ((ps.set i newph).filter Phase.isRunning).length
        + (if Phase.isRunning oldph then 1 else 0)
      = (ps.filter Phase.isRunning).length
        + (if Phase.isRunning newph then 1 else 0) := by
  induction ps generalizing i with
  | nil => simp at h
  | cons hd tl ih =>
    cases i with
    | zero =>
      simp only [List.getElem?_cons_zero] at h
      injection h with h
      subst h
      by_cases h1 : Phase.isRunning hd = true <;> by_cases h2 : Phase.isRunning newph = true <;>
        simp [List.set, List.filter_cons, h1, h2]
    | succ j =>
      simp only [List.getElem?_cons_succ] at h
      have hrec := ih j h
      by_cases h1 : Phase.isRunning hd = true <;>
        simp [List.set, List.filter_cons, h1] <;> omega

theorem isRunning_start : Phase.isRunning .start = false := rfl

theorem isRunning_raceBegin (d : Bool) : Phase.isRunning (.raceBegin d) = false := rfl

theorem isRunning_running (d : Bool) : Phase.isRunning (.running d) = true := rfl

theorem isRunning_waiting : Phase.isRunning .waiting = false := rfl

theorem isRunning_done : Phase.isRunning .done = false := rfl

/-- One scheduler step preserves the lock invariant: the number of loader
invocations in flight never exceeds what the race lock admits. -/
theorem raceStep_inv (cfg : Config) (g : RaceSt) (i t : Nat) (ok : Bool)
    (h1 : runningCount g ≤ lockCap g) :
    runningCount (raceStep cfg g i t ok) ≤ lockCap (raceStep cfg g i t ok) := by
  cases hget : g.procs[i]? with
  | none => simpa [raceStep, hget] using h1
  | some ph =>
    cases ph with
    | start =>
      have hA := filter_length_set g.procs i (.raceBegin (hitAt cfg.ttl g.entry t))
        .start hget
      have hB := filter_length_set g.procs i .done .start hget
      simp [isRunning_start, isRunning_raceBegin, isRunning_done] at hA hB
      simp only [runningCount, lockCap] at h1
      by_cases hg : gateAt cfg g.entry t = true
      · have hstep : raceStep cfg g i t ok
            = ⟨g.entry, g.lock, g.procs.set i (.raceBegin (hitAt cfg.ttl g.entry t)),
                g.runs⟩ := by
          simp [raceStep, hget, hg]
        rw [hstep]
        dsimp only [runningCount, lockCap]
        by_cases hl : g.lock = true
        · rw [if_pos hl] at h1 ⊢
          omega
        · rw [if_neg hl] at h1 ⊢
          omega
      · have hstep : raceStep cfg g i t ok
            = ⟨g.entry, g.lock, g.procs.set i .done, g.runs⟩ := by
          simp [raceStep, hget, hg]
        rw [hstep]
        dsimp only [runningCount, lockCap]
        by_cases hl : g.lock = true
        · rw [if_pos hl] at h1 ⊢
          omega
        · rw [if_neg hl] at h1 ⊢
          omega
    | raceBegin did =>
      have hD := filter_length_set g.procs i .done (.raceBegin did) hget
      have hW := filter_length_set g.procs i .waiting (.raceBegin did) hget
      have hR := filter_length_set g.procs i (.running did) (.raceBegin did) hget
      simp [isRunning_raceBegin, isRunning_done, isRunning_waiting,
        isRunning_running] at hD hW hR
      simp only [runningCount, lockCap] at h1
      by_cases hl : g.lock = true
      · rw [if_pos hl] at h1
        cases did
        · have hstep : raceStep cfg g i t ok
              = ⟨g.entry, g.lock, g.procs.set i .waiting, g.runs⟩ := by
            simp [raceStep, hget, hl]
          rw [hstep]
          dsimp only [runningCount, lockCap]
          rw [if_pos hl]
          omega
        · have hstep : raceStep cfg g i t ok
              = ⟨g.entry, g.lock, g.procs.set i .done, g.runs⟩ := by
            simp [raceStep, hget, hl]
          rw [hstep]
          dsimp only [runningCount, lockCap]
          rw [if_pos hl]
          omega
      · rw [if_neg hl] at h1
        have hstep : raceStep cfg g i t ok
            = ⟨g.entry, true, g.procs.set i (.running did), g.runs ++ [t]⟩ := by
          simp [raceStep, hget, hl]
        rw [hstep]
        dsimp only [runningCount, lockCap]
        rw [if_pos rfl]
        omega
    | running did =>
      have hD := filter_length_set g.procs i .done (.running did) hget
      simp [isRunning_running, isRunning_done] at hD
      have hmem : Phase.running did ∈ g.procs :=
        List.get?_mem (by simpa [List.get?_eq_getElem?] using hget)
      have hmf : Phase.running did ∈ g.procs.filter Phase.isRunning :=
        List.mem_filter.mpr ⟨hmem, rfl⟩
      have hpos : 0 < (g.procs.filter Phase.isRunning).length :=
        List.length_pos_of_mem hmf
      simp only [runningCount, lockCap] at h1
      cases ok
      · have hstep : raceStep cfg g i t false
            = ⟨g.entry, false, g.procs.set i .done, g.runs⟩ := by
          simp [raceStep, hget]
        rw [hstep]
        dsimp only [runningCount, lockCap]
        rw [if_neg Bool.false_ne_true]
        by_cases hl : g.lock = true
        · rw [if_pos hl] at h1
          omega
        · rw [if_neg hl] at h1
          omega
      · have hstep : raceStep cfg g i t true
            = ⟨some t, false, g.procs.set i .done, g.runs⟩ := by
          simp [raceStep, hget]
        rw [hstep]
        dsimp only [runningCount, lockCap]
        rw [if_neg Bool.false_ne_true]
        by_cases hl : g.lock = true
        · rw [if_pos hl] at h1
          omega
        · rw [if_neg hl] at h1
          omega
    | waiting =>
      have hS := filter_length_set g.procs i .start .waiting hget
      simp [isRunning_waiting, isRunning_start] at hS
      by_cases hl : g.lock = true
      · have hstep : raceStep cfg g i t ok = g := by
          simp [raceStep, hget, hl]
        rw [hstep]
        exact h1
      · have hstep : raceStep cfg g i t ok
            = ⟨g.entry, g.lock, g.procs.set i .start, g.runs⟩ := by
          simp [raceStep, hget, hl]
        rw [hstep]
        simp only [runningCount, lockCap] at h1 ⊢
        dsimp only
        rw [if_neg hl] at h1 ⊢
        omega
    | done => simpa [raceStep, hget] using h1

/-- The lock invariant holds along every schedule. -/
theorem raceRun_inv (cfg : Config) :
    ∀ (sched : List (Nat × Nat × Bool)) (g : RaceSt),
      runningCount g ≤ lockCap g →
      runningCount (raceRun cfg g sched) ≤ lockCap (raceRun cfg g sched) := by
  intro sched
  induction sched with
  | nil =>
    intro g h1
    simpa [raceRun] using h1
  | cons s rest ih =>
    intro g h1
    obtain ⟨i, t, ok⟩ := s
    simpa [raceRun] using ih (raceStep cfg g i t ok) (raceStep_inv cfg g i t ok h1)

theorem runningCount_start (e : Option Nat) (l : Bool) (rs : List Nat) (n : Nat) :
    runningCount ⟨e, l, List.replicate n .start, rs⟩ = 0 := by
  simp only [runningCount]
  induction n with
  | zero => simp
  | succ m ih => simp [List.replicate_succ, List.filter_cons, isRunning_start, ih]

/-- Claim C1 (amended): for every number `N` of concurrent `load(k)`
callers across processes and every interleaving of their steps (locks
held until their holder releases, i.e. tasks finish within the `PX`
timeout), the race lock enforces the single-flight content — at most one
loader invocation for `k` is in flight at any time, and none while the
lock key is free.  The claimed aggregate window bound itself survives
only under the restrictions the counterexamples force: when additionally
every loader invocation succeeds and calls do not overlap (each call
completes before the next begins), the loader runs at most
`⌊w / T⌋ + 1 ≤ ⌈w / T⌉ + 1` times in any window of `w` seconds, because
each successful run re-primes the key and `needsRefresh` blocks the next
run until the store TTL has decayed to `T`. -/
theorem single_flight_rate (cfg : Config) (entry0 : Option Nat) (n : Nat)
    (sched : List (Nat × Nat × Bool)) (steps : List (Nat × Bool)) (a w : Nat)
    (hT : 0 < cfg.ttl) (hok : ∀ s ∈ steps, s.2 = true) :
    runningCount (raceRun cfg ⟨entry0, false, List.replicate n .start, []⟩ sched) ≤ 1 ∧
    ((raceRun cfg ⟨entry0, false, List.replicate n .start, []⟩ sched).lock = false →
        runningCount (raceRun cfg ⟨entry0, false, List.replicate n .start, []⟩ sched) = 0) ∧
    countWindow (runTimes cfg steps none) a w ≤ w / cfg.ttl + 1 := by
  have h0 : runningCount ⟨entry0, false, List.replicate n .start, []⟩ = 0 :=
    runningCount_start entry0 false [] n
  have hbase : runningCount ⟨entry0, false, List.replicate n .start, []⟩
      ≤ lockCap ⟨entry0, false, List.replicate n .start, []⟩ := by
    rw [h0]
    exact Nat.zero_le _
  have hinv := raceRun_inv cfg sched ⟨entry0, false, List.replicate n .start, []⟩ hbase
  refine ⟨?_, ?_, ?_⟩
  · have hcap : lockCap (raceRun cfg ⟨entry0, false, List.replicate n .start, []⟩ sched)
        ≤ 1 := by
      by_cases hq : (raceRun cfg ⟨entry0, false, List.replicate n .start, []⟩ sched).lock
          = true <;>
        simp [lockCap, hq]
    omega
  · intro hl
    have hcap : lockCap (raceRun cfg ⟨entry0, false, List.replicate n .start, []⟩ sched)
        = 0 := by
      simp [lockCap, hl]
    omega
  have hchain := (runTimes_sep cfg steps hok none).1
  have htr : Transitive (fun x y => x + cfg.ttl ≤ y) := by
    intro x y z hxy hyz
    omega
  have hinst : IsTrans Nat (fun x y => x + cfg.ttl ≤ y) := ⟨htr⟩
  have hpair := List.chain'_iff_pairwise.mp hchain
  exact pairwise_window_count cfg.ttl hT _ hpair a w

/-- Witness for C1 (amended): three callers, a two-step schedule, and
three successful non-overlapping calls at 0, 1 and 5 s with `T = 2`
(loader runs at 0 and 5 only — at most 2 runs in the window `[0, 2]`). -/
theorem single_flight_rate_witness :
    0 < (⟨"users", 2, "nwloader"⟩ : Config).ttl ∧
    (∀ s ∈ [((0 : Nat), true), (1, true), (5, true)], s.2 = true) ∧
    (runningCount (raceRun ⟨"users", 2, "nwloader"⟩
        ⟨some 0, false, List.replicate 3 .start, []⟩ [(0, 2, true), (0, 2, true)]) ≤ 1 ∧
      ((raceRun ⟨"users", 2, "nwloader"⟩
          ⟨some 0, false, List.replicate 3 .start, []⟩ [(0, 2, true), (0, 2, true)]).lock
            = false →
        runningCount (raceRun ⟨"users", 2, "nwloader"⟩
          ⟨some 0, false, List.replicate 3 .start, []⟩ [(0, 2, true), (0, 2, true)]) = 0) ∧
      countWindow (runTimes ⟨"users", 2, "nwloader"⟩
        [(0, true), (1, true), (5, true)] none) 0 2 ≤ 2 / 2 + 1) :=
  ⟨by decide, by decide,
    single_flight_rate ⟨"users", 2, "nwloader"⟩ (some 0) 3 [(0, 2, true), (0, 2, true)]
      [(0, true), (1, true), (5, true)] 0 2 (by decide) (by decide)⟩

/-- Claim C1 counterexample, refuting the stated aggregate bound
`⌈window / T⌉ + 1` in both the ways the amendment excludes.  First,
failing loaders: errors are never cached, so three back-to-back `load`
calls whose loader throws (all at time 0, `T = 2`) run the loader three
times inside the window `[0, 2]` — bound 2.  Second, concurrency with
all-successful loaders: three callers that each pass the staleness check
(entry primed at 0, read at `t = 2`, TTL 2 ≤ T) before the first
re-prime, then acquire the freed race lock in turn, run the loader three
times at `t = 2` — three successful runs, none simultaneously in flight,
in the window `[2, 4]` of `T = 2` seconds, again exceeding bound 2. -/
theorem single_flight_rate_counterexample :
    (countWindow (runTimes ⟨"users", 2, "nwloader"⟩
        [(0, false), (0, false), (0, false)] none) 0 2 = 3 ∧
      2 / 2 + 1 < 3) ∧
    ((raceRun ⟨"users", 2, "nwloader"⟩ ⟨some 0, false, [.start, .start, .start], []⟩
        [(0, 2, true), (1, 2, true), (2, 2, true), (0, 2, true), (0, 2, true),
          (1, 2, true), (1, 2, true), (2, 2, true), (2, 2, true)]).runs = [2, 2, 2] ∧
      countWindow [2, 2, 2] 2 2 = 3 ∧ 2 / 2 + 1 < 3) := by
  exact ⟨⟨rfl, by decide⟩, rfl, rfl, by decide⟩

end NwLoader
